import Mathlib

/-!
Shallow embedding of the calendar event API in src/backend/app.py, together
with theorems checking the claims of the specification against it.

Modelling conventions:
* Python strings are Lean Strings; character classes (digits, whitespace,
  alphabetic) are modelled over ASCII, which covers every value the rules
  and examples exercise.
* The ambient wall clock read by datetime.now() inside the source is made
  an explicit parameter (a Date for the validators, a canonical date string
  for the SQL level), so the functions are total and executable.
* The SQLite table is a list of rows in rowid (insertion) order; TEXT
  comparison under the default BINARY collation is byte order, modelled by
  a lexicographic comparison on the character list; ORDER BY is modelled
  as a stable sort over rowid order.
-/

namespace CalendarApp

/-- ASCII whitespace as stripped and split on by Python str.strip and
str.split: space, tab, newline, carriage return, vertical tab, form feed. -/
def isSpaceCh (c : Char) : Bool :=
  c == ' ' || c == '\t' || c == '\n' || c == '\r' || c == '\x0b' || c == '\x0c'

/-- Python str.strip on a character list: drop leading and trailing
whitespace. -/
def trimL (l : List Char) : List Char :=
  ((l.dropWhile isSpaceCh).reverse.dropWhile isSpaceCh).reverse

/-- Split a character list at every slash, keeping empty pieces, as the
slash separated fields of the %d/%m/%Y pattern. -/
def splitSlash (l : List Char) : List (List Char) :=
  l.foldr
    (fun c acc =>
      if c == '/' then [] :: acc
      else
        match acc with
        | [] => [[c]]
        | t :: ts => (c :: t) :: ts)
    [[]]

/-- Helper for splitWS: cur is the reversed word being read. -/
def splitWSAux : List Char → List Char → List (List Char)
  | cur, [] => if cur = [] then [] else [cur.reverse]
  | cur, c :: rest =>
    if isSpaceCh c then
      if cur = [] then splitWSAux [] rest else cur.reverse :: splitWSAux [] rest
    else splitWSAux (c :: cur) rest

/-- Python str.split() with no argument: maximal runs of non-whitespace
characters, empty pieces discarded. -/
def splitWS (l : List Char) : List (List Char) :=
  splitWSAux [] l

/-- Numeric value of a digit token (int() on a short digit string). -/
def tokNat (l : List Char) : Nat :=
  l.foldl (fun n c => 10 * n + (c.toNat - '0'.toNat)) 0

/-- A calendar day: a Python datetime truncated to midnight, so comparisons
are at day granularity. -/
structure Date where
  year : Nat
  month : Nat
  day : Nat
deriving DecidableEq, Repr

/-- date_obj < today between midnight datetimes (app.py line 94):
lexicographic on (year, month, day). -/
def dateLt (a b : Date) : Bool :=
  decide (a.year < b.year) ||
    (a.year == b.year &&
      (decide (a.month < b.month) || (a.month == b.month && decide (a.day < b.day))))

/-- Gregorian leap year rule used by Python datetime. -/
def isLeapYear (y : Nat) : Bool :=
  y % 4 == 0 && (y % 100 != 0 || y % 400 == 0)

/-- Length of a month in the proleptic Gregorian calendar of Python
datetime. -/
def daysInMonth (y m : Nat) : Nat :=
  if m = 2 then (if isLeapYear y then 29 else 28)
  else if m = 4 ∨ m = 6 ∨ m = 9 ∨ m = 11 then 30
  else 31

/-- datetime.strptime(date_str, "%d/%m/%Y") from app.py line 90. The
CPython pattern lets the day be one or two digits with value 1 to 31, the
month one or two digits with value 1 to 12, and the year exactly four
digits; the whole string must be consumed, and building the date object
then requires a real calendar day (day within the month length, year at
least 1). Any failure raises ValueError, here None. -/
def parseDate (s : String) : Option Date :=
  match splitSlash s.data with
  | [dt, mt, yt] =>
    if dt.all Char.isDigit = true ∧ (dt.length = 1 ∨ dt.length = 2)
        ∧ mt.all Char.isDigit = true ∧ (mt.length = 1 ∨ mt.length = 2)
        ∧ yt.all Char.isDigit = true ∧ yt.length = 4 then
      let d := tokNat dt
      let m := tokNat mt
      let y := tokNat yt
      if 1 ≤ d ∧ 1 ≤ m ∧ m ≤ 12 ∧ 1 ≤ y ∧ d ≤ daysInMonth y m then
        some ⟨y, m, d⟩
      else none
    else none
  | _ => none

/-- Zero padded two digit field of strftime (%m, %d). -/
def pad2 (n : Nat) : String :=
  if n < 10 then "0" ++ toString n else toString n

/-- Four digit year field of strftime (%Y), zero padded; exact for the
years at least 1000 that every concrete date here uses (below 1000 the
padding of %Y is platform dependent). -/
def pad4 (n : Nat) : String :=
  if n < 10 then "000" ++ toString n
  else if n < 100 then "00" ++ toString n
  else if n < 1000 then "0" ++ toString n
  else toString n

/-- date_obj.strftime("%Y-%m-%d") (app.py line 97): the canonical storage
form of a date. -/
def canonicalDate (d : Date) : String :=
  pad4 d.year ++ "-" ++ pad2 d.month ++ "-" ++ pad2 d.day

/-- Error message of the past date branch (app.py line 95). -/
def pastMsg : String :=
  "Cannot add events to past dates. Please select today or a future date."

/-- Error message of the except ValueError branch (app.py line 99). -/
def formatMsg : String :=
  "Date must be in DD/MM/YYYY format"

/-- validate_title from app.py lines 79 to 84: trimmed length at least 5
and at least one alphabetic character. -/
def validate_title (title : String) : Bool × String :=
  if (trimL title.data).length < 5 then
    (false, "Title must be at least 5 characters long")
  else if title.data.any Char.isAlpha = false then
    (false, "Title must contain at least one letter")
  else (true, "")

/-- validate_date from app.py lines 87 to 99. The day read from
datetime.now() inside the source is the explicit parameter today. -/
def validate_date (date_str : String) (today : Date) : Bool × String :=
  match parseDate date_str with
  | none => (false, formatMsg)
  | some date_obj =>
    if dateLt date_obj today = true then (false, pastMsg)
    else (true, canonicalDate date_obj)

/-- Error message of the notes branch (app.py line 108). -/
def notesMsg (word_count : Nat) : String :=
  "Notes must be maximum 23 words (currently " ++ toString word_count ++ ")"

/-- validate_notes from app.py lines 102 to 109: empty or whitespace only
notes pass; otherwise len(notes.strip().split()) must be at most 23. -/
def validate_notes (notes : String) : Bool × String :=
  if notes = "" ∨ trimL notes.data = [] then (true, "")
  else
    let word_count := (splitWS (trimL notes.data)).length
    if word_count > 23 then (false, notesMsg word_count)
    else (true, "")

/-- Byte order comparison of character lists: the memcmp order SQLite uses
to compare TEXT values under the default BINARY collation (UTF-8 byte
order agrees with code point order). -/
def lexLt : List Char → List Char → Bool
  | [], [] => false
  | [], _ :: _ => true
  | _ :: _, [] => false
  | a :: as, b :: bs =>
    if a < b then true
    else if b < a then false
    else lexLt as bs

/-- The SQL comparison s < t on TEXT columns. -/
def sLt (s t : String) : Bool :=
  lexLt s.data t.data

/-- A row of the events table (app.py lines 52 to 61). created_at is the
opaque insertion timestamp text. -/
structure Event where
  id : Nat
  title : String
  date : String
  location : String
  notes : String
  created_at : String
deriving DecidableEq, Repr

/-- cleanup_past_events from app.py lines 112 to 116:
DELETE FROM events WHERE date < today, with today the canonical form of
the current day (read from datetime.now() in the source, here the
parameter). The store is the row list in rowid order. -/
def cleanup_past_events (store : List Event) (today : String) : List Event :=
  store.filter (fun e => !(sLt e.date today))

/-- The WHERE date LIKE "month%" filter of app.py line 133: a prefix match
on the canonical date (exact for the digit and dash month arguments the
endpoint documents; LIKE is case insensitive only on letters). With no
month argument every row matches (app.py line 135). -/
def monthMatches (month : Option String) (d : String) : Bool :=
  match month with
  | none => true
  | some m => m.data.isPrefixOf d.data

/-- The row order a ≤ b on the date column used by ORDER BY date. -/
def dateLe (a b : Event) : Prop :=
  sLt b.date a.date = false

instance : DecidableRel dateLe := fun a b =>
  inferInstanceAs (Decidable (sLt b.date a.date = false))

/-- get_events from app.py lines 124 to 137: purge past events, then
SELECT with the optional month filter and ORDER BY date. The sort is
modelled as a stable sort (insertion sort) over rowid order, matching the
single threaded SQLite sorter. -/
def get_events (store : List Event) (today : String) (month : Option String) : List Event :=
  let cleaned := cleanup_past_events store today
  (cleaned.filter (fun e => monthMatches month e.date)).insertionSort dateLe

/-- Dictionary lookup data[k] on the JSON object, represented as the list
of its key value pairs. -/
def lookupS : List (String × String) → String → Option String
  | [], _ => none
  | (a, b) :: rest, k => if k = a then some b else lookupS rest k

/-- The Python test (k in data). -/
def hasKey (data : List (String × String)) (k : String) : Bool :=
  (lookupS data k).isSome

/-- data[k] where the caller has checked the key is present (default empty
otherwise, never read in that case). -/
def getV (data : List (String × String)) (k : String) : String :=
  (lookupS data k).getD ""

/-- The assignment data["date"] = date_formatted of app.py line 207:
replace the value at an existing key. -/
def setKey : List (String × String) → String → String → List (String × String)
  | [], _, _ => []
  | p :: rest, k, v => (if p.1 = k then (k, v) else p) :: setKey rest k v

/-- The fixed field list of the dynamic UPDATE assembly (app.py line 220). -/
def updatableFields : List String :=
  ["title", "date", "location", "notes"]

/-- Applying the SET clauses of the dynamic UPDATE to one row: each field
of the allow list present in data overwrites the column; id and
created_at have no clause. -/
def applyFields (data : List (String × String)) (e : Event) : Event :=
  { e with
    title := if hasKey data "title" then getV data "title" else e.title
    date := if hasKey data "date" then getV data "date" else e.date
    location := if hasKey data "location" then getV data "location" else e.location
    notes := if hasKey data "notes" then getV data "notes" else e.notes }

/-- Outcome of the update endpoint: the JSON body and status code. -/
inductive UpResult
  | ok (e : Event)
  | err400 (msg : String)
  | err404 (msg : String)
deriving DecidableEq, Repr

/-- update_event from app.py lines 190 to 241: validate each provided
field (title, then date, then truthy notes) short circuiting on failure,
rewrite data["date"] to canonical form, build the UPDATE from the allow
listed keys present, run it on the row with the target id, and re-read the
row (404 when absent). Returns the table after the call and the response. -/
def update_event (store : List Event) (event_id : Nat) (data : List (String × String))
    (today : Date) : List Event × UpResult :=
  if hasKey data "title" = true ∧ (validate_title (getV data "title")).1 = false then
    (store, UpResult.err400 (validate_title (getV data "title")).2)
  else if hasKey data "date" = true ∧ (validate_date (getV data "date") today).1 = false then
    (store, UpResult.err400 (validate_date (getV data "date") today).2)
  else if hasKey data "notes" = true ∧ getV data "notes" ≠ ""
      ∧ (validate_notes (getV data "notes")).1 = false then
    (store, UpResult.err400 (validate_notes (getV data "notes")).2)
  else
    let data2 :=
      if hasKey data "date" = true then
        setKey data "date" (validate_date (getV data "date") today).2
      else data
    if updatableFields.filter (fun f => hasKey data f) = [] then
      (store, UpResult.err400 "No fields to update")
    else
      let newStore := store.map (fun e => if e.id = event_id then applyFields data2 e else e)
      match newStore.find? (fun e => e.id == event_id) with
      | some e => (newStore, UpResult.ok e)
      | none => (newStore, UpResult.err404 "Event not found")


/-- The order the specification claims for the list endpoint output:
ascending canonical date, ties broken by ascending id. -/
def eventLex (a b : Event) : Prop :=
  sLt a.date b.date = true ∨ (a.date = b.date ∧ a.id < b.id)

/-- The date parse the specification describes, following its words for
comparison with parseDate, the parse of the source: exactly two digit day,
exactly two digit month, exactly four digit year, naming a real calendar
date. -/
def specParseExact (s : String) : Option Date :=
  match splitSlash s.data with
  | [dt, mt, yt] =>
    if dt.all Char.isDigit = true ∧ dt.length = 2
        ∧ mt.all Char.isDigit = true ∧ mt.length = 2
        ∧ yt.all Char.isDigit = true ∧ yt.length = 4 then
      let d := tokNat dt
      let m := tokNat mt
      let y := tokNat yt
      if 1 ≤ d ∧ 1 ≤ m ∧ m ≤ 12 ∧ 1 ≤ y ∧ d ≤ daysInMonth y m then
        some ⟨y, m, d⟩
      else none
    else none
  | _ => none

/-- A notes value of 24 whitespace separated words. -/
def notes24 : String :=
  String.intercalate " " (List.replicate 24 "word")

def ev (i : Nat) (d : String) : Event := ⟨i, "Event title", d, "", "", "t0"⟩

/-- The frame relation of the update endpoint between a row after the
call and the row that was there before: id and created_at never change,
and rows other than the target do not change at all. -/
def frameRel (event_id : Nat) (e2 e : Event) : Prop :=
  e2.id = e.id ∧ e2.created_at = e.created_at ∧ (e.id ≠ event_id → e2 = e)

theorem lexLt_irrefl : ∀ l : List Char, lexLt l l = false
  | [] => rfl
  | c :: t => by simp [lexLt, lexLt_irrefl t]

theorem lexLt_trans : ∀ a b c : List Char,
    lexLt a b = true → lexLt b c = true → lexLt a c = true
  | [], [], _, h1, _ => by simp [lexLt] at h1
  | [], _ :: _, [], _, h2 => by simp [lexLt] at h2
  | [], _ :: _, _ :: _, _, _ => rfl
  | _ :: _, [], _, h1, _ => by simp [lexLt] at h1
  | _ :: _, _ :: _, [], _, h2 => by simp [lexLt] at h2
  | x :: as, y :: bs, z :: cs, h1, h2 => by
    simp only [lexLt] at h1 h2 ⊢
    rcases lt_trichotomy x y with hxy | hxy | hxy
    · rcases lt_trichotomy y z with hyz | hyz | hyz
      · simp [lt_trans hxy hyz]
      · subst hyz; simp [hxy]
      · simp [lt_asymm hyz, hyz] at h2
    · subst hxy
      rcases lt_trichotomy x z with hxz | hxz | hxz
      · simp [hxz]
      · subst hxz
        simp only [lt_irrefl, if_false] at h1 h2 ⊢
        exact lexLt_trans as bs cs h1 h2
      · simp [lt_asymm hxz, hxz] at h2
    · simp [lt_asymm hxy, hxy] at h1

theorem lexLt_connex : ∀ a b : List Char,
    lexLt a b = false → lexLt b a = false → a = b
  | [], [], _, _ => rfl
  | [], _ :: _, h1, _ => by simp [lexLt] at h1
  | _ :: _, [], _, h2 => by simp [lexLt] at h2
  | x :: as, y :: bs, h1, h2 => by
    rcases lt_trichotomy x y with hxy | hxy | hxy
    · simp [lexLt, hxy] at h1
    · subst hxy
      simp only [lexLt, lt_irrefl, if_false] at h1 h2
      rw [lexLt_connex as bs h1 h2]
    · simp [lexLt, lt_asymm hxy, hxy] at h2

theorem sLt_irrefl (s : String) : sLt s s = false :=
  lexLt_irrefl s.data

theorem sLt_trans {a b c : String} (h1 : sLt a b = true) (h2 : sLt b c = true) :
    sLt a c = true :=
  lexLt_trans _ _ _ h1 h2

theorem sLt_connex {a b : String} (h1 : sLt a b = false) (h2 : sLt b a = false) : a = b := by
  cases a with
  | mk da =>
    cases b with
    | mk db => exact congrArg String.mk (lexLt_connex da db h1 h2)

/-- Claim C4: after cleanup no remaining event is dated strictly before
the current day, every event dated on or after it is retained, and an
immediate second cleanup with the same day removes nothing. -/
theorem cleanup_past_events_spec (store : List Event) (today : String) :
    (∀ e ∈ cleanup_past_events store today, sLt e.date today = false)
      ∧ (∀ e ∈ store, sLt e.date today = false → e ∈ cleanup_past_events store today)
      ∧ cleanup_past_events (cleanup_past_events store today) today
          = cleanup_past_events store today := by
  refine ⟨?_, ?_, ?_⟩
  · intro e he
    have := (List.mem_filter.mp he).2
    simpa using this
  · intro e he h
    exact List.mem_filter.mpr ⟨he, by simp [h]⟩
  · simp [cleanup_past_events, List.filter_filter, Bool.and_self]

/-- Witness for C4 at a concrete store and day. -/
theorem cleanup_past_events_spec_witness :
    ev 1 "2025-06-20" ∈ cleanup_past_events [ev 1 "2025-06-20", ev 2 "2025-06-10"] "2025-06-15" :=
  (cleanup_past_events_spec [ev 1 "2025-06-20", ev 2 "2025-06-10"] "2025-06-15").2.1
    (ev 1 "2025-06-20") (by decide) (by decide)

theorem dateLe_cases {a b : Event} (h : dateLe a b) :
    sLt a.date b.date = true ∨ a.date = b.date := by
  rcases hab : sLt a.date b.date with _ | _
  · exact Or.inr (sLt_connex hab h)
  · exact Or.inl rfl

theorem eventLex_extend {a b x : Event} (hab : dateLe a b) (hbx : eventLex b x)
    (hid : a.id < x.id) : eventLex a x := by
  rcases dateLe_cases hab with h1 | h1
  · rcases hbx with h2 | ⟨h2, _⟩
    · exact Or.inl (sLt_trans h1 h2)
    · exact Or.inl (h2 ▸ h1)
  · rcases hbx with h2 | ⟨h2, _⟩
    · exact Or.inl (h1 ▸ h2)
    · exact Or.inr ⟨h1.trans h2, hid⟩

theorem orderedInsert_eventLex (a : Event) :
    ∀ l : List Event, l.Pairwise eventLex → (∀ x ∈ l, a.id < x.id) →
      (l.orderedInsert dateLe a).Pairwise eventLex
  | [], _, _ => List.pairwise_cons.mpr ⟨by simp, List.Pairwise.nil⟩
  | b :: t, hp, ha => by
    show (if dateLe a b then a :: b :: t else b :: t.orderedInsert dateLe a).Pairwise eventLex
    by_cases hab : dateLe a b
    · rw [if_pos hab]
      refine List.pairwise_cons.mpr ⟨?_, hp⟩
      intro x hx
      rcases List.mem_cons.mp hx with hx | hx
      · rw [hx]
        rcases dateLe_cases hab with h1 | h1
        · exact Or.inl h1
        · exact Or.inr ⟨h1, ha b (List.mem_cons_self b t)⟩
      · exact eventLex_extend hab ((List.pairwise_cons.mp hp).1 x hx)
          (ha x (List.mem_cons_of_mem b hx))
    · rw [if_neg hab]
      refine List.pairwise_cons.mpr ⟨?_, ?_⟩
      · intro x hx
        rcases (List.mem_orderedInsert dateLe).mp hx with hx | hx
        · subst hx
          have : sLt b.date x.date = true := by
            rcases hbx : sLt b.date x.date with _ | _
            · exact absurd hbx hab
            · rfl
          exact Or.inl this
        · exact (List.pairwise_cons.mp hp).1 x hx
      · exact orderedInsert_eventLex a t (List.Pairwise.of_cons hp)
          (fun x hx => ha x (List.mem_cons_of_mem b hx))

theorem insertionSort_eventLex :
    ∀ l : List Event, l.Pairwise (fun a b => a.id < b.id) →
      (l.insertionSort dateLe).Pairwise eventLex
  | [], _ => List.Pairwise.nil
  | a :: t, hp => by
    show (List.orderedInsert dateLe a (t.insertionSort dateLe)).Pairwise eventLex
    refine orderedInsert_eventLex a _ (insertionSort_eventLex t (List.Pairwise.of_cons hp)) ?_
    intro x hx
    exact (List.pairwise_cons.mp hp).1 x ((List.perm_insertionSort dateLe t).mem_iff.mp hx)

/-- Claim C3: the list endpoint first purges past events, then returns
exactly the remaining events matching the month filter, in ascending
canonical date order with ties broken by ascending id, and never an event
dated strictly before the current day. The store invariant that rowid
order is ascending id order (AUTOINCREMENT) is the hypothesis. -/
theorem get_events_spec (store : List Event) (today : String) (month : Option String)
    (hids : store.Pairwise (fun a b => a.id < b.id)) :
    (get_events store today month).Perm
        ((cleanup_past_events store today).filter (fun e => monthMatches month e.date))
      ∧ (∀ e, e ∈ get_events store today month
          ↔ e ∈ cleanup_past_events store today ∧ monthMatches month e.date = true)
      ∧ (get_events store today month).Pairwise eventLex
      ∧ ∀ e ∈ get_events store today month, sLt e.date today = false := by
  refine ⟨List.perm_insertionSort _ _, ?_, ?_, ?_⟩
  · intro e
    simp only [get_events]
    rw [(List.perm_insertionSort dateLe _).mem_iff, List.mem_filter]
  · exact insertionSort_eventLex _ (List.Pairwise.filter _ (List.Pairwise.filter _ hids))
  · intro e he
    have hm := (List.perm_insertionSort dateLe _).mem_iff.mp he
    have := (List.mem_filter.mp (List.mem_filter.mp hm).1).2
    simpa using this

/-- Witness for C3: the month filtered listing on a concrete store with a
date tie is in the claimed order. -/
theorem get_events_spec_witness :
    (get_events [ev 1 "2025-06-20", ev 2 "2025-06-10", ev 3 "2025-06-20", ev 4 "2025-07-01"]
        "2025-06-15" (some "2025-06")).Pairwise eventLex :=
  (get_events_spec [ev 1 "2025-06-20", ev 2 "2025-06-10", ev 3 "2025-06-20", ev 4 "2025-07-01"]
      "2025-06-15" (some "2025-06") (by decide)).2.2.1

/-- Claim C1: validateDate fails with PastDate exactly when the input
parses as a real calendar date strictly earlier than the current day
(comparison at day granularity, the model carries no time of day), on
success returns the date in canonical YYYY-MM-DD form, and the two
specification examples hold at today = 2025-06-15. -/
theorem validate_date_past_spec :
    (∀ s t, validate_date s t = (false, pastMsg)
        ↔ ∃ d, parseDate s = some d ∧ dateLt d t = true)
      ∧ (∀ s t c, validate_date s t = (true, c)
          → ∃ d, parseDate s = some d ∧ dateLt d t = false ∧ c = canonicalDate d)
      ∧ validate_date "14/06/2025" ⟨2025, 6, 15⟩ = (false, pastMsg)
      ∧ validate_date "15/06/2025" ⟨2025, 6, 15⟩ = (true, "2025-06-15") := by
  refine ⟨?_, ?_, by decide, by decide⟩
  · intro s t
    constructor
    · intro h
      cases hp : parseDate s with
      | none =>
        simp only [validate_date, hp, Prod.mk.injEq] at h
        exact absurd h.2 (by decide)
      | some d =>
        refine ⟨d, rfl, ?_⟩
        by_cases hlt : dateLt d t = true
        · exact hlt
        · simp only [validate_date, hp, if_neg hlt, Prod.mk.injEq] at h
          exact absurd h.1 (by decide)
    · rintro ⟨d, hd, hlt⟩
      simp only [validate_date, hd, if_pos hlt]
  · intro s t c h
    cases hp : parseDate s with
    | none =>
      simp only [validate_date, hp, Prod.mk.injEq] at h
      exact absurd h.1 (by decide)
    | some d =>
      by_cases hlt : dateLt d t = true
      · simp only [validate_date, hp, if_pos hlt, Prod.mk.injEq] at h
        exact absurd h.1 (by decide)
      · simp only [validate_date, hp, if_neg hlt, Prod.mk.injEq] at h
        have hlt2 : dateLt d t = false := by simpa using hlt
        exact ⟨d, rfl, hlt2, h.2.symm⟩

/-- Witness for C1 at the example success input. -/
theorem validate_date_past_spec_witness :
    ∃ d, parseDate "15/06/2025" = some d ∧ dateLt d ⟨2025, 6, 15⟩ = false
        ∧ "2025-06-15" = canonicalDate d :=
  validate_date_past_spec.2.1 "15/06/2025" ⟨2025, 6, 15⟩ "2025-06-15" (by decide)

/-- Claim C2 counterexample: the strptime pattern of the source also
accepts a one digit day such as "1/06/2025", which under the claim (day of
exactly two digits) must fail as a date format error; the source accepts
it, so failing with InvalidDateFormat is not equivalent to falling outside
the two digit format of the claim. -/
theorem validate_date_two_digit_counterexample :
    specParseExact "1/06/2025" = none
      ∧ validate_date "1/06/2025" ⟨2025, 1, 1⟩ = (true, "2025-06-01")
      ∧ ¬ (∀ s t, validate_date s t = (false, formatMsg) ↔ specParseExact s = none) := by
  refine ⟨by decide, by decide, fun h => ?_⟩
  have hc := (h "1/06/2025" ⟨2025, 1, 1⟩).mpr (by decide)
  exact absurd hc (by decide)

/-- Claim C2 amended: validateDate fails with InvalidDateFormat exactly
when the input does not parse under the pattern of the source (day and
month of one or two digits, year of exactly four digits, naming a real
calendar date), and "31/04/2025" always fails as a date format failure,
never a past date failure, whatever the current day. -/
theorem validate_date_format_spec :
    (∀ s t, validate_date s t = (false, formatMsg) ↔ parseDate s = none)
      ∧ ∀ t, validate_date "31/04/2025" t = (false, formatMsg) := by
  constructor
  · intro s t
    constructor
    · intro h
      cases hp : parseDate s with
      | none => rfl
      | some d =>
        by_cases hlt : dateLt d t = true
        · simp only [validate_date, hp, if_pos hlt, Prod.mk.injEq] at h
          exact absurd h.2 (by decide)
        · simp only [validate_date, hp, if_neg hlt, Prod.mk.injEq] at h
          exact absurd h.1 (by decide)
    · intro hp
      simp only [validate_date, hp]
  · intro t
    have hp : parseDate "31/04/2025" = none := by decide
    simp only [validate_date, hp]

/-- Witness for C2 (amended) at a concrete current day. -/
theorem validate_date_format_spec_witness :
    validate_date "31/04/2025" ⟨2025, 6, 15⟩ = (false, formatMsg) :=
  validate_date_format_spec.2 ⟨2025, 6, 15⟩

theorem splitWSAux_dropWhile (l : List Char) :
    splitWSAux [] (l.dropWhile isSpaceCh) = splitWSAux [] l := by
  induction l with
  | nil => rfl
  | cons c t ih =>
    by_cases hc : isSpaceCh c = true
    · rw [List.dropWhile_cons_of_pos hc, ih]
      simp [splitWSAux, hc]
    · rw [List.dropWhile_cons_of_neg hc]

theorem splitWSAux_all_spaces : ∀ t : List Char, t.all isSpaceCh = true →
    ∀ cur, splitWSAux cur t = splitWSAux cur []
  | [], _, _ => rfl
  | c :: t, h, cur => by
    have hc : isSpaceCh c = true := List.all_eq_true.mp h c (List.mem_cons_self c t)
    have ht : t.all isSpaceCh = true :=
      List.all_eq_true.mpr fun x hx => List.all_eq_true.mp h x (List.mem_cons_of_mem c hx)
    by_cases hcur : cur = ([] : List Char)
    · subst hcur
      simp [splitWSAux, hc, splitWSAux_all_spaces t ht []]
    · simp [splitWSAux, hc, hcur, splitWSAux_all_spaces t ht []]

theorem splitWSAux_append_spaces (t : List Char) (ht : t.all isSpaceCh = true) :
    ∀ (m cur : List Char), splitWSAux cur (m ++ t) = splitWSAux cur m
  | [], cur => by
    rw [List.nil_append]
    exact splitWSAux_all_spaces t ht cur
  | c :: m, cur => by
    rw [List.cons_append]
    by_cases hc : isSpaceCh c = true
    · by_cases hcur : cur = ([] : List Char)
      · subst hcur
        simp [splitWSAux, hc, splitWSAux_append_spaces t ht m]
      · simp [splitWSAux, hc, hcur, splitWSAux_append_spaces t ht m]
    · simp [splitWSAux, hc, splitWSAux_append_spaces t ht m]

theorem splitWS_trimL (l : List Char) : splitWS (trimL l) = splitWS l := by
  unfold splitWS trimL
  rw [← splitWSAux_dropWhile l]
  conv_rhs =>
    rw [← List.reverse_reverse (l.dropWhile isSpaceCh),
      ← List.takeWhile_append_dropWhile isSpaceCh (l.dropWhile isSpaceCh).reverse,
      List.reverse_append]
  exact (splitWSAux_append_spaces _
    (List.all_eq_true.mpr fun x hx => List.mem_takeWhile_imp (List.mem_reverse.mp hx)) _ []).symm

/-- Claim C7: validateNotes succeeds exactly when splitting the notes on
whitespace runs yields at most 23 non empty tokens, and whitespace only
input always passes. -/
theorem validate_notes_spec :
    (∀ notes, (validate_notes notes).1 = true ↔ (splitWS notes.data).length ≤ 23)
      ∧ ∀ notes, trimL notes.data = [] → (validate_notes notes).1 = true := by
  constructor
  · intro notes
    simp only [validate_notes]
    by_cases he : notes = "" ∨ trimL notes.data = []
    · rw [if_pos he]
      simp only [true_iff]
      rcases he with he | he
      · subst he
        decide
      · rw [← splitWS_trimL, he]
        decide
    · rw [if_neg he, splitWS_trimL]
      by_cases hc : (splitWS notes.data).length > 23
      · rw [if_pos hc]
        constructor
        · intro h
          exact absurd h Bool.false_ne_true
        · intro h
          omega
      · rw [if_neg hc]
        constructor
        · intro _
          omega
        · intro _
          rfl
  · intro notes h
    rw [validate_notes, if_pos (Or.inr h)]

/-- Witness for C7: pure whitespace passes, 24 words fail. -/
theorem validate_notes_spec_witness :
    (validate_notes "   ").1 = true ∧ (validate_notes notes24).1 = false :=
  ⟨validate_notes_spec.2 "   " (by decide), by decide⟩

/-- Claim C8: validateTitle fails exactly when the trimmed title is
shorter than five characters or no character of the title is alphabetic. -/
theorem validate_title_spec (title : String) :
    (validate_title title).1 = false
      ↔ ((trimL title.data).length < 5 ∨ ∀ c ∈ title.data, c.isAlpha = false) := by
  simp only [validate_title]
  by_cases h5 : (trimL title.data).length < 5
  · rw [if_pos h5]
    simp [h5]
  · rw [if_neg h5]
    by_cases ha : title.data.any Char.isAlpha = false
    · rw [if_pos ha]
      simp only [true_iff]
      exact Or.inr fun c hc => by
        have := List.any_eq_false.mp ha c hc
        simpa using this
    · rw [if_neg ha]
      constructor
      · intro h
        exact absurd h (by decide)
      · intro h
        rcases h with h | h
        · exact absurd h h5
        · exact absurd (List.any_eq_false.mpr fun c hc => by simp [h c hc]) ha

/-- Witness for C8 at a concrete failing title. -/
theorem validate_title_spec_witness :
    (trimL "hi".data).length < 5 ∨ ∀ c ∈ "hi".data, c.isAlpha = false :=
  (validate_title_spec "hi").mp (by decide)

/-- Claim C9 counterexample: with the ambient day modelled as the value
datetime.now() returns inside the source, the outcome of validate_date for
a fixed input string changes with that ambient day, so the validator does
read (and depend on) implicit wall clock state rather than taking the day
as an explicit input. -/
theorem validate_date_ambient_counterexample :
    validate_date "15/06/2025" ⟨2025, 6, 15⟩ ≠ validate_date "15/06/2025" ⟨2025, 6, 16⟩ := by
  decide

/-- Claim C9 amended: the validators are deterministic once the current
day is fixed (title and notes take no day at all, and in this model all
three are total functions), and the canonical date a successful
validate_date returns does not depend on the day; but validate_date reads
the current day from the ambient wall clock inside the source, and its
pass or fail outcome genuinely depends on it. -/
theorem validators_determinism :
    (∃ s t1 t2, validate_date s t1 ≠ validate_date s t2)
      ∧ ∀ s t1 t2 c1 c2, validate_date s t1 = (true, c1) → validate_date s t2 = (true, c2)
          → c1 = c2 := by
  constructor
  · exact ⟨"15/06/2025", ⟨2025, 6, 15⟩, ⟨2025, 6, 16⟩, by decide⟩
  · intro s t1 t2 c1 c2 h1 h2
    cases hp : parseDate s with
    | none =>
      simp only [validate_date, hp, Prod.mk.injEq] at h1
      exact absurd h1.1 (by decide)
    | some d =>
      by_cases ha : dateLt d t1 = true
      · simp only [validate_date, hp, if_pos ha, Prod.mk.injEq] at h1
        exact absurd h1.1 (by decide)
      · by_cases hb : dateLt d t2 = true
        · simp only [validate_date, hp, if_pos hb, Prod.mk.injEq] at h2
          exact absurd h2.1 (by decide)
        · simp only [validate_date, hp, if_neg ha, Prod.mk.injEq] at h1
          simp only [validate_date, hp, if_neg hb, Prod.mk.injEq] at h2
          exact h1.2.symm.trans h2.2

/-- Witness for C9 (amended): the success value is day independent at a
concrete input, via the theorem. -/
theorem validators_determinism_witness :
    ("2025-06-15" : String) = "2025-06-15" :=
  validators_determinism.2 "15/06/2025" ⟨2025, 6, 15⟩ ⟨2025, 6, 10⟩ "2025-06-15" "2025-06-15"
    (by decide) (by decide)

/-- Claim C5: when any provided field fails validation, the update
endpoint reports that validation error and writes nothing: the store after
the call is the store before it. -/
theorem update_event_validation_atomic (store : List Event) (event_id : Nat)
    (data : List (String × String)) (today : Date)
    (h : (hasKey data "title" = true ∧ (validate_title (getV data "title")).1 = false)
        ∨ (hasKey data "date" = true ∧ (validate_date (getV data "date") today).1 = false)
        ∨ (hasKey data "notes" = true ∧ (validate_notes (getV data "notes")).1 = false)) :
    (update_event store event_id data today).1 = store
      ∧ ∃ msg, (update_event store event_id data today).2 = UpResult.err400 msg
          ∧ (msg = (validate_title (getV data "title")).2
              ∨ msg = (validate_date (getV data "date") today).2
              ∨ msg = (validate_notes (getV data "notes")).2) := by
  by_cases c1 : hasKey data "title" = true ∧ (validate_title (getV data "title")).1 = false
  · rw [update_event, if_pos c1]
    exact ⟨rfl, _, rfl, Or.inl rfl⟩
  · by_cases c2 : hasKey data "date" = true ∧ (validate_date (getV data "date") today).1 = false
    · rw [update_event, if_neg c1, if_pos c2]
      exact ⟨rfl, _, rfl, Or.inr (Or.inl rfl)⟩
    · have c3 : hasKey data "notes" = true ∧ getV data "notes" ≠ ""
          ∧ (validate_notes (getV data "notes")).1 = false := by
        rcases h with h | h | h
        · exact absurd h c1
        · exact absurd h c2
        · refine ⟨h.1, ?_, h.2⟩
          intro hemp
          have := h.2
          rw [hemp] at this
          exact absurd this (by decide)
      rw [update_event, if_neg c1, if_neg c2, if_pos c3]
      exact ⟨rfl, _, rfl, Or.inr (Or.inr rfl)⟩

/-- Witness for C5: updating notes to 24 words fails with the notes
message and leaves the store unchanged. -/
theorem update_event_validation_atomic_witness :
    (update_event [ev 1 "2025-06-20"] 1 [("notes", notes24)] ⟨2025, 6, 15⟩).1
        = [ev 1 "2025-06-20"]
      ∧ ∃ msg, (update_event [ev 1 "2025-06-20"] 1 [("notes", notes24)] ⟨2025, 6, 15⟩).2
            = UpResult.err400 msg
          ∧ (msg = (validate_title (getV [("notes", notes24)] "title")).2
              ∨ msg = (validate_date (getV [("notes", notes24)] "date") ⟨2025, 6, 15⟩).2
              ∨ msg = (validate_notes (getV [("notes", notes24)] "notes")).2) :=
  update_event_validation_atomic [ev 1 "2025-06-20"] 1 [("notes", notes24)] ⟨2025, 6, 15⟩
    (Or.inr (Or.inr ⟨by decide, by decide⟩))

/-- Claim C6 counterexample: on an id absent from the store and the empty
update input (whose present fields all pass validation vacuously), the
endpoint answers with the 400 response "No fields to update", not with the
404 not found response the claim requires. -/
theorem update_event_empty_input_counterexample :
    [ev 1 "2025-06-20"].all (fun e => e.id != 2) = true
      ∧ update_event [ev 1 "2025-06-20"] 2 [] ⟨2025, 6, 15⟩
          = ([ev 1 "2025-06-20"], UpResult.err400 "No fields to update") :=
  ⟨by decide, by decide⟩

theorem map_untouched (store : List Event) (event_id : Nat) (f : Event → Event)
    (hid : ∀ e ∈ store, e.id ≠ event_id) :
    store.map (fun e => if e.id = event_id then f e else e) = store := by
  rw [List.map_congr_left fun e he => if_neg (hid e he)]
  exact List.map_id store

/-- Claim C6 amended: when the target id is absent, the input contains at
least one updatable field, and every provided field passes validation, the
update endpoint answers 404 not found and the store is unchanged. -/
theorem update_event_notfound_spec (store : List Event) (event_id : Nat)
    (data : List (String × String)) (today : Date)
    (hid : ∀ e ∈ store, e.id ≠ event_id)
    (hfields : updatableFields.filter (fun f => hasKey data f) ≠ [])
    (ht : hasKey data "title" = true → (validate_title (getV data "title")).1 = true)
    (hd : hasKey data "date" = true → (validate_date (getV data "date") today).1 = true)
    (hn : hasKey data "notes" = true → getV data "notes" ≠ ""
        → (validate_notes (getV data "notes")).1 = true) :
    update_event store event_id data today = (store, UpResult.err404 "Event not found") := by
  have c1 : ¬ (hasKey data "title" = true ∧ (validate_title (getV data "title")).1 = false) := by
    rintro ⟨hk, hv⟩
    rw [ht hk] at hv
    exact Bool.noConfusion hv
  have c2 : ¬ (hasKey data "date" = true
      ∧ (validate_date (getV data "date") today).1 = false) := by
    rintro ⟨hk, hv⟩
    rw [hd hk] at hv
    exact Bool.noConfusion hv
  have c3 : ¬ (hasKey data "notes" = true ∧ getV data "notes" ≠ ""
      ∧ (validate_notes (getV data "notes")).1 = false) := by
    rintro ⟨hk, hne, hv⟩
    rw [hn hk hne] at hv
    exact Bool.noConfusion hv
  simp only [update_event]
  rw [if_neg c1, if_neg c2, if_neg c3, if_neg hfields,
    map_untouched store event_id _ hid]
  have hfind : store.find? (fun e => e.id == event_id) = none :=
    List.find?_eq_none.mpr fun x hx => by simp [hid x hx]
  rw [hfind]

/-- Witness for C6 (amended): updating an absent id with a valid title
answers 404 and changes nothing. -/
theorem update_event_notfound_spec_witness :
    update_event [ev 1 "2025-06-20"] 99 [("title", "Valid Title")] ⟨2025, 6, 15⟩
      = ([ev 1 "2025-06-20"], UpResult.err404 "Event not found") :=
  update_event_notfound_spec [ev 1 "2025-06-20"] 99 [("title", "Valid Title")] ⟨2025, 6, 15⟩
    (by decide) (by decide) (fun _ => by decide)
    (fun h => absurd h (by decide)) (fun h => absurd h (by decide))

theorem frame_map (store : List Event) (event_id : Nat) (f : Event → Event)
    (hf : ∀ e, (f e).id = e.id ∧ (f e).created_at = e.created_at) :
    List.Forall₂ (frameRel event_id)
      (store.map (fun e => if e.id = event_id then f e else e)) store := by
  induction store with
  | nil => exact List.Forall₂.nil
  | cons a rest ih =>
    refine List.Forall₂.cons ?_ ih
    show frameRel event_id (if a.id = event_id then f a else a) a
    by_cases ha : a.id = event_id
    · rw [if_pos ha]
      exact ⟨(hf a).1, (hf a).2, fun hne => absurd ha hne⟩
    · rw [if_neg ha]
      exact ⟨rfl, rfl, fun _ => rfl⟩

theorem frame_refl (store : List Event) (event_id : Nat) :
    List.Forall₂ (frameRel event_id) store store :=
  List.forall₂_same.mpr fun _ _ => ⟨rfl, rfl, fun _ => rfl⟩

theorem update_event_frame_store (store : List Event) (event_id : Nat)
    (data : List (String × String)) (today : Date) :
    List.Forall₂ (frameRel event_id) ((update_event store event_id data today).1) store := by
  simp only [update_event]
  by_cases c1 : hasKey data "title" = true ∧ (validate_title (getV data "title")).1 = false
  · rw [if_pos c1]
    exact frame_refl store event_id
  rw [if_neg c1]
  by_cases c2 : hasKey data "date" = true ∧ (validate_date (getV data "date") today).1 = false
  · rw [if_pos c2]
    exact frame_refl store event_id
  rw [if_neg c2]
  by_cases c3 : hasKey data "notes" = true ∧ getV data "notes" ≠ ""
      ∧ (validate_notes (getV data "notes")).1 = false
  · rw [if_pos c3]
    exact frame_refl store event_id
  rw [if_neg c3]
  by_cases c4 : updatableFields.filter (fun f => hasKey data f) = []
  · rw [if_pos c4]
    exact frame_refl store event_id
  rw [if_neg c4]
  split
  · exact frame_map store event_id _ fun e => ⟨rfl, rfl⟩
  · exact frame_map store event_id _ fun e => ⟨rfl, rfl⟩

theorem lookupS_setKey_ne (key v k : String) (h : k ≠ key) :
    ∀ d, lookupS (setKey d key v) k = lookupS d k := by
  intro d
  induction d with
  | nil => rfl
  | cons p rest ih =>
    by_cases hp : p.1 = key
    · rw [setKey, if_pos hp, lookupS, lookupS,
        if_neg (show ¬ k = (key, v).1 from h),
        if_neg (show ¬ k = p.1 from fun hh => h (hh.trans hp))]
      exact ih
    · rw [setKey, if_neg hp, lookupS, lookupS]
      by_cases hkp : k = p.1
      · rw [if_pos hkp, if_pos hkp]
      · rw [if_neg hkp, if_neg hkp]
        exact ih

theorem lookupS_setKey_self (key v : String) :
    ∀ d, lookupS (setKey d key v) key
      = if (lookupS d key).isSome = true then some v else none := by
  intro d
  induction d with
  | nil => rfl
  | cons p rest ih =>
    by_cases hp : p.1 = key
    · rw [setKey, if_pos hp, lookupS, lookupS,
        if_pos (show key = (key, v).1 from rfl), if_pos (show key = p.1 from hp.symm)]
      rfl
    · have hp2 : ¬ key = p.1 := fun hh => hp hh.symm
      rw [setKey, if_neg hp, lookupS, lookupS, if_neg hp2, if_neg hp2, ih]

theorem applyFields_congr (d d2 : List (String × String))
    (h : ∀ k ∈ updatableFields, lookupS d k = lookupS d2 k) (e : Event) :
    applyFields d e = applyFields d2 e := by
  have hT := h "title" (by simp [updatableFields])
  have hD := h "date" (by simp [updatableFields])
  have hL := h "location" (by simp [updatableFields])
  have hN := h "notes" (by simp [updatableFields])
  simp only [applyFields, hasKey, getV, hT, hD, hL, hN]

theorem update_event_congr (store : List Event) (event_id : Nat) (today : Date)
    (d d2 : List (String × String))
    (h : ∀ k ∈ updatableFields, lookupS d k = lookupS d2 k) :
    update_event store event_id d today = update_event store event_id d2 today := by
  have hT := h "title" (by simp [updatableFields])
  have hD := h "date" (by simp [updatableFields])
  have hN := h "notes" (by simp [updatableFields])
  have eT : hasKey d "title" = hasKey d2 "title" := by rw [hasKey, hasKey, hT]
  have gT : getV d "title" = getV d2 "title" := by rw [getV, getV, hT]
  have eD : hasKey d "date" = hasKey d2 "date" := by rw [hasKey, hasKey, hD]
  have gD : getV d "date" = getV d2 "date" := by rw [getV, getV, hD]
  have eN : hasKey d "notes" = hasKey d2 "notes" := by rw [hasKey, hasKey, hN]
  have gN : getV d "notes" = getV d2 "notes" := by rw [getV, getV, hN]
  have eL : hasKey d "location" = hasKey d2 "location" := by
    rw [hasKey, hasKey, h "location" (by simp [updatableFields])]
  have efilter : updatableFields.filter (fun f => hasKey d f)
      = updatableFields.filter (fun f => hasKey d2 f) := by
    simp only [updatableFields, List.filter_cons, List.filter_nil, eT, eD, eL, eN]
  have eapply : applyFields (if hasKey d2 "date" = true
        then setKey d "date" (validate_date (getV d2 "date") today).2 else d)
      = applyFields (if hasKey d2 "date" = true
        then setKey d2 "date" (validate_date (getV d2 "date") today).2 else d2) := by
    funext e
    apply applyFields_congr
    intro k hk
    by_cases hc : hasKey d2 "date" = true
    · rw [if_pos hc, if_pos hc]
      by_cases hkd : k = "date"
      · subst hkd
        rw [lookupS_setKey_self, lookupS_setKey_self, hD]
      · rw [lookupS_setKey_ne _ _ _ hkd, lookupS_setKey_ne _ _ _ hkd]
        exact h k hk
    · rw [if_neg hc, if_neg hc]
      exact h k hk
  simp only [update_event, eT, gT, eD, gD, eN, gN, efilter, eapply]

theorem lookupS_filter_mem (d : List (String × String)) (k : String)
    (hk : k ∈ updatableFields) :
    lookupS (d.filter (fun p => decide (p.1 ∈ updatableFields))) k = lookupS d k := by
  induction d with
  | nil => rfl
  | cons p rest ih =>
    by_cases hp : p.1 ∈ updatableFields
    · simp only [List.filter_cons]
      rw [if_pos (decide_eq_true hp)]
      by_cases hkp : k = p.1
      · simp only [lookupS, if_pos hkp]
      · simp only [lookupS, if_neg hkp]
        exact ih
    · simp only [List.filter_cons]
      rw [if_neg (by simp [hp])]
      have hkp : ¬ k = p.1 := fun hh => hp (hh ▸ hk)
      rw [ih]
      simp only [lookupS, if_neg hkp]

/-- Claim C10: the update endpoint can only write the four allow listed
fields of the target row: across the whole store id and created_at are
unchanged and rows other than the target are untouched, and the call
ignores every input key outside the allow list (restricting the input to
the allow listed keys gives the identical call result). -/
theorem update_event_frame (store : List Event) (event_id : Nat)
    (data : List (String × String)) (today : Date) :
    List.Forall₂ (frameRel event_id) ((update_event store event_id data today).1) store
      ∧ update_event store event_id data today
          = update_event store event_id
              (data.filter (fun p => decide (p.1 ∈ updatableFields))) today := by
  constructor
  · exact update_event_frame_store store event_id data today
  · apply update_event_congr
    intro k hk
    exact (lookupS_filter_mem data k hk).symm

/-- Witness for C10 at a concrete call carrying an unknown key. -/
theorem update_event_frame_witness :
    update_event [ev 1 "2025-06-20"] 1 [("zzz", "x"), ("title", "Hello there")] ⟨2025, 6, 15⟩
      = update_event [ev 1 "2025-06-20"] 1
          ([("zzz", "x"), ("title", "Hello there")].filter
            (fun p => decide (p.1 ∈ updatableFields))) ⟨2025, 6, 15⟩ :=
  (update_event_frame [ev 1 "2025-06-20"] 1 [("zzz", "x"), ("title", "Hello there")]
    ⟨2025, 6, 15⟩).2

end CalendarApp
